import Mathlib

/-!
Verification of the coffee-clock repository.

The development shallowly embeds the two algorithmic cores of the
application and proves the specified properties about them:

* the caffeine decay / forecast model of
  `src/app/components/CaffeineChart.tsx`;
* the asynchronous analysis-job pipeline: submission
  (`src/app/components/ScanDrinkCard.tsx`), worker
  (`src/netlify/functions/analyze-drink-background.ts`) and the polling
  loop of the scan card.

Timestamps are modelled in milliseconds (JavaScript `Date.getTime`),
numeric values as real numbers, and the effectful UI / database code as
pure functions from the relevant inputs (oracles for network and
database outcomes) to traces of the effects the code performs.
-/

namespace CoffeeClock

/-! ## Decay model (`CaffeineChart.tsx`)

```ts
const HALF_LIFE = 5;
const calculateRemaining = (amount, elapsedHours) => {
  if (elapsedHours < 0) return 0;
  return amount * Math.pow(0.5, elapsedHours / HALF_LIFE);
};
```
-/

/-- Average caffeine half-life in hours (`const HALF_LIFE = 5`). -/
def HALF_LIFE : ℝ := 5

/-- Milliseconds per hour, `1000 * 60 * 60`, used by the chart to convert
timestamp differences into hours. -/
def msPerHour : ℝ := 1000 * 60 * 60

/-- `calculateRemaining` from `CaffeineChart.tsx`: remaining caffeine via
exponential decay; negative elapsed time yields `0`. -/
noncomputable def calculateRemaining (amount elapsedHours : ℝ) : ℝ :=
  if elapsedHours < 0 then 0 else amount * (0.5 : ℝ) ^ (elapsedHours / HALF_LIFE)

/-- A chart input row (`interface Log { drank_at; caffeine_amount }`),
with `drank_at` already converted to a millisecond timestamp. -/
structure LogEvent where
  drank_at : ℝ
  caffeine_amount : ℝ

/-- Contribution of one log entry to the total at `queryTime`, as in the
chart loop:

```ts
const elapsedHours = (currentTime - logTime) / (1000 * 60 * 60);
if (elapsedHours >= 0) { totalCaffeine += calculateRemaining(...); }
```
-/
noncomputable def eventContribution (amount occurredAt queryTime : ℝ) : ℝ :=
  let elapsedHours := (queryTime - occurredAt) / msPerHour
  if 0 ≤ elapsedHours then calculateRemaining amount elapsedHours else 0

/-- Total residual caffeine at `queryTime`: the `logs.forEach`
accumulation of per-event contributions. -/
noncomputable def residualAt (logs : List LogEvent) (queryTime : ℝ) : ℝ :=
  (logs.map (fun g => eventContribution g.caffeine_amount g.drank_at queryTime)).sum

lemma msPerHour_pos : (0 : ℝ) < msPerHour := by norm_num [msPerHour]

lemma eventContribution_of_le (a occ t : ℝ) (h : occ ≤ t) :
    eventContribution a occ t = a * (0.5 : ℝ) ^ (((t - occ) / msPerHour) / HALF_LIFE) := by
  have he : 0 ≤ (t - occ) / msPerHour :=
    div_nonneg (by linarith) (le_of_lt msPerHour_pos)
  simp only [eventContribution, calculateRemaining]
  rw [if_pos he, if_neg (not_lt.mpr he)]

lemma eventContribution_of_gt (a occ t : ℝ) (h : t < occ) :
    eventContribution a occ t = 0 := by
  have he : (t - occ) / msPerHour < 0 :=
    div_neg_of_neg_of_pos (by linarith) msPerHour_pos
  simp only [eventContribution]
  rw [if_neg (not_le.mpr he)]

/-- **C1.** Per-event contribution to the residual computation: for
`occurredAt ≤ t` the event contributes
`amount * 0.5 ^ (elapsedHours / 5)` with
`elapsedHours = (t - occurredAt) in hours`; at `elapsedHours = 0` the
full amount; an event of amount `150` contributes `75` after 5 hours and
`37.5` after 10 hours; an event with `occurredAt > t` contributes `0`. -/
theorem decay_contribution_formula (a occ t : ℝ) (_ha : 0 ≤ a) :
    (occ ≤ t →
      eventContribution a occ t
        = a * (0.5 : ℝ) ^ (((t - occ) / msPerHour) / HALF_LIFE)) ∧
    eventContribution a occ occ = a ∧
    (t < occ → eventContribution a occ t = 0) ∧
    eventContribution 150 occ (occ + 5 * msPerHour) = 75 ∧
    eventContribution 150 occ (occ + 10 * msPerHour) = 37.5 := by
  refine ⟨fun h => eventContribution_of_le a occ t h, ?_, fun h => eventContribution_of_gt a occ t h, ?_, ?_⟩
  · rw [eventContribution_of_le a occ occ le_rfl]
    have : (occ - occ) / msPerHour / HALF_LIFE = (0 : ℝ) := by
      simp [HALF_LIFE]
    rw [this, Real.rpow_zero, mul_one]
  · rw [eventContribution_of_le 150 occ (occ + 5 * msPerHour) (by nlinarith [msPerHour_pos])]
    have : (occ + 5 * msPerHour - occ) / msPerHour / HALF_LIFE = (1 : ℝ) := by
      field_simp [HALF_LIFE, msPerHour]
    rw [this, Real.rpow_one]
    norm_num
  · rw [eventContribution_of_le 150 occ (occ + 10 * msPerHour) (by nlinarith [msPerHour_pos])]
    have h2 : (occ + 10 * msPerHour - occ) / msPerHour / HALF_LIFE = (2 : ℝ) := by
      field_simp [HALF_LIFE, msPerHour]
      ring
    rw [h2]
    have : ((2 : ℝ)) = ((2 : ℕ) : ℝ) := by norm_num
    rw [this, Real.rpow_natCast]
    norm_num

/-- Witness for `decay_contribution_formula` at `a = 150`, `occ = 0`,
`t = 5 * msPerHour`. -/
theorem decay_contribution_formula_witness :
    (0 : ℝ) ≤ 150 ∧ eventContribution 150 0 (0 + 5 * msPerHour) = 75 :=
  ⟨by norm_num, (decay_contribution_formula 150 0 (5 * msPerHour) (by norm_num)).2.2.2.1⟩

/-! ## Forecast series (`CaffeineChart.tsx` effect body)

```ts
const points = [];
let current = new Date(start);
while (current <= end) {
  ... points.push({ timestamp: currentTime, amount: Math.round(totalCaffeine) });
  current.setMinutes(current.getMinutes() + 30);
}
```
-/

/-- Timestamps (ms) produced by the chart's `while (current <= end)` loop
stepping 30 minutes (`30 * 60000` ms) at a time. -/
def seriesTimes (endT : ℕ) (current : ℕ) : List ℕ :=
  if current ≤ endT then current :: seriesTimes endT (current + 30 * 60000) else []
termination_by endT + 1 - current
decreasing_by omega

/-- The points pushed by the loop: timestamp paired with the rounded
residual (`amount: Math.round(totalCaffeine)`); JavaScript `Math.round`
is `⌊x + 1/2⌋`, which is Mathlib's `round`. -/
noncomputable def forecastPoints (logs : List LogEvent) (endT start : ℕ) :
    List (ℕ × ℤ) :=
  (seriesTimes endT start).map (fun t => (t, round (residualAt logs (t : ℝ))))

lemma seriesTimes_of_gt (endT current : ℕ) (h : ¬ current ≤ endT) :
    seriesTimes endT current = [] := by
  rw [seriesTimes, if_neg h]

lemma seriesTimes_length (endT current : ℕ) (h : current ≤ endT) :
    (seriesTimes endT current).length = (endT - current) / 1800000 + 1 := by
  rw [seriesTimes, if_pos h]
  by_cases h2 : current + 30 * 60000 ≤ endT
  · rw [List.length_cons, seriesTimes_length endT _ h2]
    omega
  · rw [seriesTimes_of_gt endT _ h2]
    simp only [List.length_cons, List.length_nil]
    omega
termination_by endT + 1 - current
decreasing_by omega

lemma seriesTimes_mem (endT current x : ℕ) (hx : x ∈ seriesTimes endT current) :
    current ≤ x ∧ x ≤ endT := by
  by_cases h : current ≤ endT
  · rw [seriesTimes, if_pos h] at hx
    rcases List.mem_cons.mp hx with rfl | hx'
    · exact ⟨le_rfl, h⟩
    · have := seriesTimes_mem endT (current + 30 * 60000) x hx'
      exact ⟨by omega, this.2⟩
  · rw [seriesTimes_of_gt endT _ h] at hx
    cases hx
termination_by endT + 1 - current
decreasing_by omega

lemma seriesTimes_pairwise (endT current : ℕ) :
    (seriesTimes endT current).Pairwise (· < ·) := by
  by_cases h : current ≤ endT
  · rw [seriesTimes, if_pos h]
    refine List.pairwise_cons.mpr ⟨?_, seriesTimes_pairwise endT (current + 30 * 60000)⟩
    intro x hx
    have := seriesTimes_mem endT (current + 30 * 60000) x hx
    omega
  · rw [seriesTimes_of_gt endT _ h]
    exact List.Pairwise.nil
termination_by endT + 1 - current
decreasing_by omega

lemma seriesTimes_head (endT current : ℕ) (h : current ≤ endT) :
    (seriesTimes endT current).head? = some current := by
  rw [seriesTimes, if_pos h, List.head?_cons]

lemma seriesTimes_getLast (endT current : ℕ) (h : current ≤ endT) :
    ∃ L, (seriesTimes endT current).getLast? = some L ∧
      L ≤ endT ∧ endT < L + 30 * 60000 := by
  by_cases h2 : current + 30 * 60000 ≤ endT
  · obtain ⟨L, hL, hL1, hL2⟩ := seriesTimes_getLast endT (current + 30 * 60000) h2
    refine ⟨L, ?_, hL1, hL2⟩
    rw [seriesTimes, if_pos h]
    rw [seriesTimes, if_pos h2] at hL ⊢
    rw [List.getLast?_cons_cons]
    exact hL
  · refine ⟨current, ?_, h, by omega⟩
    rw [seriesTimes, if_pos h, seriesTimes_of_gt endT _ h2]
    rfl
termination_by endT + 1 - current
decreasing_by omega

/-- **C2 (amended).** For a window `[windowStart, windowEnd]` traversed
with step `S = 30` minutes by the `while (current <= end)` loop, the
series has exactly `⌊D/S⌋ + 1` points (`D = windowEnd - windowStart`,
in ms, step `1800000` ms) — not `⌈D/S⌉ + 1` — with strictly increasing
timestamps, first point `windowStart`, every point `≤ windowEnd`, and
the last point lying within one step of `windowEnd` (boundary point at
or before `windowEnd` included). -/
theorem forecast_series_shape (windowStart windowEnd : ℕ)
    (h : windowStart ≤ windowEnd) :
    (seriesTimes windowEnd windowStart).length
        = (windowEnd - windowStart) / 1800000 + 1 ∧
    (seriesTimes windowEnd windowStart).Pairwise (· < ·) ∧
    (seriesTimes windowEnd windowStart).head? = some windowStart ∧
    (∀ x ∈ seriesTimes windowEnd windowStart, x ≤ windowEnd) ∧
    ∃ L, (seriesTimes windowEnd windowStart).getLast? = some L ∧
      L ≤ windowEnd ∧ windowEnd < L + 30 * 60000 :=
  ⟨seriesTimes_length windowEnd windowStart h,
   seriesTimes_pairwise windowEnd windowStart,
   seriesTimes_head windowEnd windowStart h,
   fun x hx => (seriesTimes_mem windowEnd windowStart x hx).2,
   seriesTimes_getLast windowEnd windowStart h⟩

/-- Witness for `forecast_series_shape` at a degenerate window. -/
theorem forecast_series_shape_witness :
    (0 : ℕ) ≤ 0 ∧ (seriesTimes 0 0).length = (0 - 0) / 1800000 + 1 :=
  ⟨le_rfl, (forecast_series_shape 0 0 le_rfl).1⟩

/-- **C2 (counterexample).** For a 45-minute window (`D = 2700000` ms)
with 30-minute step the loop produces 2 points, not
`⌈D/S⌉ + 1 = 3` as the claim states: the claimed count formula fails
whenever the step does not divide the duration. -/
theorem forecast_series_ceil_count_counterexample :
    ¬ ((seriesTimes 2700000 0).length
        = (2700000 - 0 + 1800000 - 1) / 1800000 + 1) := by
  have h := seriesTimes_length 2700000 0 (by omega)
  omega

/-- **C10.** Every emitted forecast point stores the exact residual sum
rounded to the nearest integer (`Math.round`), hence an integer value
within `1/2` of the exact residual sum at the point's timestamp. -/
theorem forecast_point_rounding (logs : List LogEvent) (endT start : ℕ)
    (p : ℕ × ℤ) (hp : p ∈ forecastPoints logs endT start) :
    p.2 = round (residualAt logs (p.1 : ℝ)) ∧
    |((p.2 : ℝ)) - residualAt logs (p.1 : ℝ)| ≤ 1 / 2 := by
  obtain ⟨t, _ht, rfl⟩ := List.mem_map.mp hp
  refine ⟨rfl, ?_⟩
  rw [abs_sub_comm]
  exact abs_sub_round _

/-- Witness for `forecast_point_rounding` on the empty log set. -/
theorem forecast_point_rounding_witness :
    ((0 : ℕ), (0 : ℤ)) ∈ forecastPoints [] 0 0 ∧
    |(((0 : ℤ) : ℝ)) - residualAt [] ((0 : ℕ) : ℝ)| ≤ 1 / 2 := by
  have hm : ((0 : ℕ), (0 : ℤ)) ∈ forecastPoints [] 0 0 := by
    have hs : seriesTimes 0 0 = [0] := by
      rw [seriesTimes, if_pos le_rfl, seriesTimes_of_gt 0 (0 + 30 * 60000) (by omega)]
    have hr : residualAt [] (0 : ℝ) = 0 := by simp [residualAt]
    simp [forecastPoints, hs, hr]
  exact ⟨hm, by simpa using (forecast_point_rounding [] 0 0 (0, 0) hm).2⟩

/-! ## Analysis-job pipeline: data model

`src/db/2-analysis_jobs.sql` stores
`{status: pending|processing|completed|failed, result jsonb, error_message text}`.
-/

/-- Job status values (`status text` column; the system writes only
these four). -/
inductive Status
  | pending
  | processing
  | completed
  | failed
deriving DecidableEq, Repr

/-- Position of a status along the one-directional lifecycle
`pending → processing → completed|failed`. -/
def Status.rank : Status → ℕ
  | .pending => 0
  | .processing => 1
  | .completed => 2
  | .failed => 2

/-- Terminal statuses: `completed` and `failed`. -/
def Status.isTerminal : Status → Bool
  | .completed => true
  | .failed => true
  | _ => false

/-- The structured payload of a completed job (shape requested from the
vision API); strings are modelled as character lists. -/
structure AnalysisResult where
  brand : Option (List Char)
  product_name : Option (List Char)
  specs_text : Option (List Char)
  caffeine_mg : Option ℚ
  sugar_g : Option ℚ
  volume_ml : Option ℚ
  data_source : List Char
  note : Option (List Char)
deriving DecidableEq

/-- The mutable part of a job row: what the worker writes and the poller
reads (`select status, result, error_message`). -/
structure JobRow where
  status : Status
  result : Option AnalysisResult
  error_message : Option (List Char)
deriving DecidableEq

/-! ## Worker (`analyze-drink-background.ts`)

```ts
const MAX_ERROR_TEXT_LEN = 500;
const trimErrorText = (text, maxLen = MAX_ERROR_TEXT_LEN) =>
  text.length > maxLen ? `${text.slice(0, maxLen)}...` : text;
```
-/

def MAX_ERROR_TEXT_LEN : ℕ := 500

/-- `trimErrorText`: texts longer than `maxLen` are cut to `maxLen`
characters and suffixed with a three-character ellipsis. -/
def trimErrorText (text : List Char) (maxLen : ℕ := MAX_ERROR_TEXT_LEN) : List Char :=
  if maxLen < text.length then text.take maxLen ++ "...".toList else text

/-- How one run of the background handler can go: rejected before any
job update (bad method / env / body / missing fields), or reaching the
main `try` block and ending in one of its outcomes. -/
inductive WorkerOutcome
  | earlyReject
  | apiFail (errText : List Char)
  | emptyContent
  | parseFail
  | success (r : AnalysisResult)

/-- The error message the handler's `catch` receives on each failure
path (`GLM API Error: ${errText}`, `AI response was empty`,
`Failed to parse JSON from AI response`). -/
def workerErrorText : WorkerOutcome → List Char
  | .apiFail e => "GLM API Error: ".toList ++ e
  | .emptyContent => "AI response was empty".toList
  | .parseFail => "Failed to parse JSON from AI response".toList
  | _ => []

/-- The sequence of row updates the handler issues through
`safeUpdateJob`: first `{status: processing}`, then exactly one terminal
update — `{status: completed, result}` on success or
`{status: failed, error_message: trimErrorText(msg)}` from the `catch`.
`safeUpdateJob` swallows database errors, so each write may silently not
persist; `w1`/`w2` record whether the first/second write persisted. -/
def workerWrites (o : WorkerOutcome) (w1 w2 : Bool) : List JobRow :=
  match o with
  | .earlyReject => []
  | .success r =>
      (if w1 then [⟨.processing, none, none⟩] else []) ++
      (if w2 then [⟨.completed, some r, none⟩] else [])
  | .apiFail e =>
      (if w1 then [⟨.processing, none, none⟩] else []) ++
      (if w2 then
        [⟨.failed, none, some (trimErrorText (workerErrorText (.apiFail e)))⟩]
       else [])
  | .emptyContent =>
      (if w1 then [⟨.processing, none, none⟩] else []) ++
      (if w2 then
        [⟨.failed, none, some (trimErrorText (workerErrorText .emptyContent))⟩]
       else [])
  | .parseFail =>
      (if w1 then [⟨.processing, none, none⟩] else []) ++
      (if w2 then
        [⟨.failed, none, some (trimErrorText (workerErrorText .parseFail))⟩]
       else [])

/-- Successive statuses of the job row over its life: the submitter
inserts `pending`, then the worker's updates apply in order (the poller
only reads). -/
def statusHistory (o : WorkerOutcome) (w1 w2 : Bool) : List Status :=
  Status.pending :: (workerWrites o w1 w2).map JobRow.status

/-- Status of the row after the first `n` worker updates have been
applied (what a poll issued at that moment reads back). -/
def statusAt (writes : List Status) (n : ℕ) : Status :=
  (((Status.pending :: writes).take (n + 1)).getLast?).getD Status.pending

lemma statusAt_nil (n : ℕ) : statusAt [] n = Status.pending := by
  simp [statusAt]

lemma statusAt_one (s : Status) (n : ℕ) :
    statusAt [s] n = if n = 0 then Status.pending else s := by
  match n with
  | 0 => rfl
  | n + 1 => simp [statusAt, List.take_succ_cons, List.take_nil, List.getLast?]

lemma statusAt_two (s1 s2 : Status) (n : ℕ) :
    statusAt [s1, s2] n
      = if n = 0 then Status.pending else if n = 1 then s1 else s2 := by
  match n with
  | 0 => rfl
  | 1 => rfl
  | n + 2 => simp [statusAt, List.take_succ_cons, List.take_nil, List.getLast?]

lemma persist_nil : ∀ m n : ℕ, m ≤ n →
    (statusAt [] m).isTerminal = true → (statusAt [] n).isTerminal = true := by
  intro m n _ ht
  rw [statusAt_nil] at ht
  exact absurd ht (by decide)

lemma persist_one (c : Status) : ∀ m n : ℕ, m ≤ n →
    (statusAt [c] m).isTerminal = true → (statusAt [c] n).isTerminal = true := by
  intro m n hmn ht
  rw [statusAt_one] at ht ⊢
  split_ifs at ht ⊢ <;> first | exact ht | exact absurd ht (by decide) | omega

lemma persist_two (c : Status) : ∀ m n : ℕ, m ≤ n →
    (statusAt [Status.processing, c] m).isTerminal = true →
    (statusAt [Status.processing, c] n).isTerminal = true := by
  intro m n hmn ht
  rw [statusAt_two] at ht ⊢
  split_ifs at ht ⊢ <;> first | exact ht | exact absurd ht (by decide) | omega

/-- **C3.** Job status only moves forward along
`pending → processing → completed|failed`: along every reachable update
sequence (any handler outcome, any subset of the writes persisting) the
row's status history is strictly increasing in lifecycle rank, and once
a poll reads a terminal status every later poll (which sees at least as
many applied updates) also reads a terminal status. -/
theorem job_status_monotone (o : WorkerOutcome) (w1 w2 : Bool) :
    List.Chain' (fun a b => a.rank < b.rank) (statusHistory o w1 w2) ∧
    ∀ m n : ℕ, m ≤ n →
      (statusAt ((workerWrites o w1 w2).map JobRow.status) m).isTerminal = true →
      (statusAt ((workerWrites o w1 w2).map JobRow.status) n).isTerminal = true := by
  rcases o with _ | e | _ | _ | r <;> rcases w1 <;> rcases w2 <;>
    refine ⟨by simp [statusHistory, workerWrites, List.chain'_cons, Status.rank], ?_⟩ <;>
    simp only [workerWrites, List.map_cons, List.map_nil, List.map_append,
      List.append_nil, List.nil_append, if_true, if_false, Bool.false_eq_true,
      eq_self_iff_true, ite_true, ite_false] <;>
    first
      | exact persist_nil
      | exact persist_one _
      | exact persist_two _

/-- Witness for `job_status_monotone`: a successful run with both writes
persisted; after two applied updates the row is terminal, and stays so. -/
theorem job_status_monotone_witness :
    ((2 : ℕ) ≤ 3) ∧
    (statusAt ((workerWrites (.success ⟨none, none, none, none, none, none, [], none⟩) true true).map JobRow.status) 2).isTerminal = true ∧
    (statusAt ((workerWrites (.success ⟨none, none, none, none, none, none, [], none⟩) true true).map JobRow.status) 3).isTerminal = true := by
  have h2 : (statusAt ((workerWrites (.success ⟨none, none, none, none, none, none, [], none⟩) true true).map JobRow.status) 2).isTerminal = true := by
    simp [workerWrites, statusAt_two, Status.isTerminal]
  exact ⟨by omega, h2,
    (job_status_monotone (.success ⟨none, none, none, none, none, none, [], none⟩) true true).2 2 3 (by omega) h2⟩

lemma mem_two_optional {A B : JobRow} (w1 w2 : Bool) (u : JobRow)
    (hu : u ∈ (if w1 then [A] else []) ++ (if w2 then [B] else [])) :
    u = A ∨ u = B := by
  rcases w1 <;> rcases w2 <;> simp_all

lemma trimErrorText_length (t : List Char) :
    (trimErrorText t).length ≤ MAX_ERROR_TEXT_LEN + 3 := by
  unfold trimErrorText MAX_ERROR_TEXT_LEN
  split_ifs with h
  · rw [List.length_append, List.length_take]
    have : ("...".toList).length = 3 := by decide
    omega
  · omega

/-- **C9 (amended).** Whenever the worker persists a `failed` status,
the stored `error_message` is `trimErrorText` of the caught message, so
its length is bounded — but the bound is `MAX_ERROR_TEXT_LEN + 3 = 503`
characters (500 kept characters plus the appended `"..."`), not 500 as
claimed. -/
theorem worker_error_truncation (o : WorkerOutcome) (w1 w2 : Bool) :
    (∀ t : List Char, (trimErrorText t).length ≤ MAX_ERROR_TEXT_LEN + 3) ∧
    ∀ u ∈ workerWrites o w1 w2, u.status = Status.failed →
      ∃ m, u.error_message = some (trimErrorText m) ∧
        (trimErrorText m).length ≤ MAX_ERROR_TEXT_LEN + 3 := by
  refine ⟨trimErrorText_length, ?_⟩
  intro u hu hf
  rcases o with _ | e | _ | _ | r
  · simp [workerWrites] at hu
  · rcases mem_two_optional w1 w2 u hu with rfl | rfl
    · exact absurd hf (by decide)
    · exact ⟨_, rfl, trimErrorText_length _⟩
  · rcases mem_two_optional w1 w2 u hu with rfl | rfl
    · exact absurd hf (by decide)
    · exact ⟨_, rfl, trimErrorText_length _⟩
  · rcases mem_two_optional w1 w2 u hu with rfl | rfl
    · exact absurd hf (by decide)
    · exact ⟨_, rfl, trimErrorText_length _⟩
  · rcases mem_two_optional w1 w2 u hu with rfl | rfl
    · exact absurd hf (by decide)
    · simp at hf

/-- Witness for `worker_error_truncation`: the `emptyContent` failure
with only the terminal write persisting. -/
theorem worker_error_truncation_witness :
    ((⟨Status.failed, none, some (trimErrorText (workerErrorText .emptyContent))⟩ : JobRow)
        ∈ workerWrites .emptyContent false true) ∧
    ∃ m, (some (trimErrorText (workerErrorText .emptyContent)) : Option (List Char))
            = some (trimErrorText m) ∧
        (trimErrorText m).length ≤ MAX_ERROR_TEXT_LEN + 3 := by
  have hm : (⟨Status.failed, none, some (trimErrorText (workerErrorText .emptyContent))⟩ : JobRow)
      ∈ workerWrites .emptyContent false true := by
    simp [workerWrites]
  exact ⟨hm, (worker_error_truncation .emptyContent false true).2 _ hm rfl⟩

/-- **C9 (counterexample).** A 501-character upstream error text yields
a persisted `error_message` of 503 characters: the persisted message
does **not** stay within the claimed 500-character bound. -/
theorem worker_error_truncation_counterexample :
    ∃ u ∈ workerWrites (.apiFail (List.replicate 501 'a')) true true,
      u.status = Status.failed ∧
      ∃ e, u.error_message = some e ∧ MAX_ERROR_TEXT_LEN < e.length := by
  refine ⟨⟨.failed, none,
    some (trimErrorText (workerErrorText (.apiFail (List.replicate 501 'a'))))⟩,
    List.mem_cons_of_mem _ (List.mem_cons_self _ _), rfl, _, rfl, ?_⟩
  have hlen : (workerErrorText (.apiFail (List.replicate 501 'a'))).length = 516 := by
    unfold workerErrorText
    rw [List.length_append, List.length_replicate]
    norm_num [String.toList]
  unfold trimErrorText MAX_ERROR_TEXT_LEN
  rw [if_pos (by rw [hlen]; omega)]
  rw [List.length_append, List.length_take, hlen]
  have h3 : ("...".toList).length = 3 := by decide
  rw [h3]
  norm_num

/-! ## Poller (`ScanDrinkCard.tsx`, `startPolling`)

```ts
let attempts = 0;
const maxAttempts = 60; // Approx 2 minutes (2s interval)
pollTimerRef.current = setInterval(async () => {
  attempts++;
  if (attempts > maxAttempts) { stopPolling(); onError(...); setIsAnalyzing(false); return; }
  const { data, error } = await supabase.from("analysis_jobs")...
  ...
}, 2000);
```
-/

/-- What one Supabase status read returns to the poll callback: a
transient error (`error` truthy) or the selected row. -/
inductive ReadOutcome
  | err
  | ok (v : JobRow)

/-- JavaScript `x || dflt` for a nullable string: `null` and the empty
string are falsy. -/
def jsOr (s : Option (List Char)) (dflt : List Char) : List Char :=
  match s with
  | some v => if v = [] then dflt else v
  | none => dflt

/-- Effects the poll callback can perform, in program order.
`updateJob` (a database write) belongs to the vocabulary of the client
but is never emitted by the poller, which only reads. -/
inductive PollEffect
  | readStatus
  | stopTimer
  | surfaceError (msg : List Char)
  | surfaceSuccess (r : AnalysisResult)
  | setCategory (s : List Char)
  | setAnalyzing (b : Bool)
  | setLabel (s : List Char)
  | updateJob (row : JobRow)
deriving DecidableEq

def maxAttempts : ℕ := 60

def pollIntervalMs : ℕ := 2000

/-- One firing of the interval callback: `attempts` is the
already-incremented counter (the k-th firing runs with `attempts = k`).
Over the cap the callback stops the timer and surfaces the timeout
without reading; otherwise it reads and dispatches on the row. -/
def pollTick (attempts : ℕ) (o : ReadOutcome) : List PollEffect :=
  if maxAttempts < attempts then
    [.stopTimer, .surfaceError "Analysis timed out. Please try again.".toList,
     .setAnalyzing false]
  else
    .readStatus ::
      match o with
      | .err => []
      | .ok v =>
        match v.status with
        | .completed =>
            .stopTimer :: .setAnalyzing false ::
              (match v.result with
               | some r => [.surfaceSuccess r, .setCategory (jsOr r.product_name [])]
               | none => [.surfaceError "Analysis completed but returned no data.".toList])
        | .failed =>
            [.stopTimer, .setAnalyzing false,
             .surfaceError (jsOr v.error_message "Analysis failed.".toList)]
        | s =>
            [.setLabel (if s = Status.processing
                        then "AI is analyzing image...".toList
                        else "Waiting for queue...".toList)]

/-- Recognizer for the read effect. -/
def isRead : PollEffect → Bool
  | .readStatus => true
  | _ => false

/-- Recognizer for the `clearInterval` effect. -/
def isStop : PollEffect → Bool
  | .stopTimer => true
  | _ => false

/-- Whether the k-th firing clears the interval (calls `stopPolling`). -/
def tickStops (attempts : ℕ) (o : ReadOutcome) : Bool :=
  (pollTick attempts o).any isStop

/-- Whether some earlier firing (`1 ≤ j < k`) already cleared the
interval, in which case firing `k` never happens. -/
def stoppedBefore (obs : ℕ → ReadOutcome) (k : ℕ) : Bool :=
  (List.range k).any fun j => j != 0 && tickStops j (obs j)

/-- Effects the polling loop produces at its k-th scheduled firing
(`k ≥ 1`, occurring `k * pollIntervalMs` ms after start), given the
outcome `obs j` of the read attempted at each firing `j`. -/
def runEffects (obs : ℕ → ReadOutcome) (k : ℕ) : List PollEffect :=
  if k = 0 then []
  else if stoppedBefore obs k then []
  else pollTick k (obs k)

lemma read_mem_pollTick (k : ℕ) (o : ReadOutcome)
    (h : PollEffect.readStatus ∈ pollTick k o) : k ≤ maxAttempts := by
  by_cases hk : maxAttempts < k
  · rw [pollTick.eq_def, if_pos hk] at h
    simp at h
  · omega

lemma countP_read_pollTick (k : ℕ) (o : ReadOutcome) :
    (pollTick k o).countP isRead ≤ 1 := by
  rw [pollTick.eq_def]
  split_ifs with hk
  · simp [List.countP_cons, isRead]
  · rcases o with _ | v
    · simp [List.countP_cons, isRead]
    · rcases v with ⟨s, res, em⟩
      rcases s <;> rcases res <;>
        simp [List.countP_cons, isRead]

lemma countP_read_timeout (k : ℕ) (o : ReadOutcome) (hk : maxAttempts < k) :
    (pollTick k o).countP isRead = 0 := by
  rw [pollTick.eq_def, if_pos hk]
  simp [List.countP_cons, isRead]

lemma tickStops_false (j : ℕ) (o : ReadOutcome) (hj : j ≤ maxAttempts)
    (ho : ∀ v, o = ReadOutcome.ok v → v.status.isTerminal = false) :
    tickStops j o = false := by
  rw [tickStops, pollTick.eq_def, if_neg (by omega)]
  rcases o with _ | v
  · simp [isStop]
  · have hv := ho v rfl
    rcases v with ⟨s, res, em⟩
    rcases s <;> simp_all [Status.isTerminal, isStop]

lemma updateJob_not_mem_pollTick (k : ℕ) (o : ReadOutcome) (row : JobRow) :
    PollEffect.updateJob row ∉ pollTick k o := by
  rw [pollTick.eq_def]
  split_ifs with hk
  · simp
  · rcases o with _ | v
    · simp
    · rcases v with ⟨s, res, em⟩
      rcases s <;> rcases res <;> simp

/-- **C4.** If the job never reaches a terminal status, the poller
performs a status read only at firings `1..60` (all within
`maxAttempts * pollIntervalMs = 120` s of start, at the 2-second
boundaries), performs at most 60 reads in total, surfaces the timeout
error at the first firing past the cap, goes quiescent afterwards, and
never writes to the job record. -/
theorem poller_timeout (obs : ℕ → ReadOutcome)
    (hNT : ∀ k v, obs k = ReadOutcome.ok v → v.status.isTerminal = false) :
    (∀ k, PollEffect.readStatus ∈ runEffects obs k →
        1 ≤ k ∧ k ≤ maxAttempts ∧
          k * pollIntervalMs ≤ maxAttempts * pollIntervalMs) ∧
    (∀ N, ∑ k ∈ Finset.range N, (runEffects obs k).countP isRead ≤ maxAttempts) ∧
    PollEffect.surfaceError "Analysis timed out. Please try again.".toList
        ∈ runEffects obs (maxAttempts + 1) ∧
    (∀ k, maxAttempts + 1 < k → runEffects obs k = []) ∧
    (∀ k row, PollEffect.updateJob row ∉ runEffects obs k) := by
  have hnostop : ∀ j, j ≤ maxAttempts → (j != 0 && tickStops j (obs j)) = false := by
    intro j hj
    rcases Nat.eq_zero_or_pos j with rfl | hpos
    · simp
    · rw [tickStops_false j (obs j) hj (fun v h => hNT j v h)]
      simp
  have hsb : stoppedBefore obs (maxAttempts + 1) = false := by
    rw [stoppedBefore, List.any_eq_false]
    intro j hj
    have hje := hnostop j (Nat.lt_succ_iff.mp (List.mem_range.mp hj))
    simp [hje]
  refine ⟨?_, ?_, ?_, ?_, ?_⟩
  · intro k h
    rcases Nat.eq_zero_or_pos k with rfl | hpos
    · simp [runEffects] at h
    · by_cases hs : stoppedBefore obs k
      · rw [runEffects, if_neg (by omega), if_pos hs] at h
        simp at h
      · rw [runEffects, if_neg (by omega), if_neg hs] at h
        have hk := read_mem_pollTick k (obs k) h
        exact ⟨hpos, hk, Nat.mul_le_mul_right _ hk⟩
  · intro N
    have hterm : ∀ k, (runEffects obs k).countP isRead
        ≤ if 1 ≤ k ∧ k ≤ maxAttempts then 1 else 0 := by
      intro k
      rcases Nat.eq_zero_or_pos k with rfl | hpos
      · simp [runEffects]
      · by_cases hs : stoppedBefore obs k
        · rw [runEffects, if_neg (by omega), if_pos hs]
          simp
        · rw [runEffects, if_neg (by omega), if_neg hs]
          by_cases hk : k ≤ maxAttempts
          · rw [if_pos ⟨hpos, hk⟩]
            exact countP_read_pollTick k (obs k)
          · rw [if_neg (by omega), countP_read_timeout k (obs k) (by omega)]
    calc ∑ k ∈ Finset.range N, (runEffects obs k).countP isRead
        ≤ ∑ k ∈ Finset.range N, (if 1 ≤ k ∧ k ≤ maxAttempts then 1 else 0) :=
          Finset.sum_le_sum fun k _ => hterm k
      _ = ((Finset.range N).filter (fun k => 1 ≤ k ∧ k ≤ maxAttempts)).card := by
          rw [Finset.sum_boole]
          simp
      _ ≤ (Finset.Icc 1 maxAttempts).card := by
          apply Finset.card_le_card
          intro x hx
          simp only [Finset.mem_filter] at hx
          simp only [Finset.mem_Icc]
          exact hx.2
      _ = maxAttempts := by simp
  · rw [runEffects, if_neg (by omega), if_neg (by simp [hsb]),
      pollTick.eq_def, if_pos (by omega)]
    simp
  · intro k hk
    rw [runEffects, if_neg (by omega)]
    have : stoppedBefore obs k = true := by
      rw [stoppedBefore, List.any_eq_true]
      refine ⟨maxAttempts + 1, List.mem_range.mpr (by omega), ?_⟩
      have : tickStops (maxAttempts + 1) (obs (maxAttempts + 1)) = true := by
        rw [tickStops, pollTick.eq_def, if_pos (by omega)]
        simp [isStop]
      simp [this]
    rw [if_pos this]
  · intro k row
    rcases Nat.eq_zero_or_pos k with rfl | hpos
    · simp [runEffects]
    · by_cases hs : stoppedBefore obs k
      · rw [runEffects, if_neg (by omega), if_pos hs]
        simp
      · rw [runEffects, if_neg (by omega), if_neg hs]
        exact updateJob_not_mem_pollTick k (obs k) row

/-- Witness for `poller_timeout`: a run where every read fails
transiently (never a terminal row). -/
theorem poller_timeout_witness :
    (∀ (k : ℕ) (v : JobRow), (fun _ : ℕ => ReadOutcome.err) k = ReadOutcome.ok v →
        v.status.isTerminal = false) ∧
    PollEffect.surfaceError "Analysis timed out. Please try again.".toList
        ∈ runEffects (fun _ : ℕ => ReadOutcome.err) (maxAttempts + 1) := by
  have hNT : ∀ (k : ℕ) (v : JobRow),
      (fun _ : ℕ => ReadOutcome.err) k = ReadOutcome.ok v →
      v.status.isTerminal = false := fun _ v h => ReadOutcome.noConfusion h
  exact ⟨hNT, (poller_timeout (fun _ : ℕ => ReadOutcome.err) hNT).2.2.1⟩

/-- **C5 (amended).** A poll that observes a terminal status stops the
timer, and the surfaced outcome is determined by the record:
`completed` with a payload surfaces the payload (and the derived
category); `completed` without payload surfaces the data-integrity
error; `failed` surfaces the stored message **when it is non-empty**,
and the generic failure message when no message — or the empty string,
which JavaScript `||` treats like a missing one — is stored. -/
theorem poll_terminal_outcome (k : ℕ) (_hk1 : 1 ≤ k) (hk2 : k ≤ maxAttempts) :
    (∀ r em, pollTick k (.ok ⟨Status.completed, some r, em⟩)
        = [.readStatus, .stopTimer, .setAnalyzing false, .surfaceSuccess r,
           .setCategory (jsOr r.product_name [])]) ∧
    (∀ em, pollTick k (.ok ⟨Status.completed, none, em⟩)
        = [.readStatus, .stopTimer, .setAnalyzing false,
           .surfaceError "Analysis completed but returned no data.".toList]) ∧
    (∀ m res, m ≠ [] → pollTick k (.ok ⟨Status.failed, res, some m⟩)
        = [.readStatus, .stopTimer, .setAnalyzing false, .surfaceError m]) ∧
    (∀ res, pollTick k (.ok ⟨Status.failed, res, none⟩)
        = [.readStatus, .stopTimer, .setAnalyzing false,
           .surfaceError "Analysis failed.".toList]) ∧
    (∀ res, pollTick k (.ok ⟨Status.failed, res, some []⟩)
        = [.readStatus, .stopTimer, .setAnalyzing false,
           .surfaceError "Analysis failed.".toList]) ∧
    (∀ v : JobRow, v.status.isTerminal = true →
        PollEffect.stopTimer ∈ pollTick k (.ok v)) := by
  have hcap : ¬ maxAttempts < k := by omega
  refine ⟨?_, ?_, ?_, ?_, ?_, ?_⟩
  · intro r em
    rw [pollTick.eq_def, if_neg hcap]
  · intro em
    rw [pollTick.eq_def, if_neg hcap]
  · intro m res hne
    rw [pollTick.eq_def, if_neg hcap]
    simp [jsOr, hne]
  · intro res
    rw [pollTick.eq_def, if_neg hcap]
    simp [jsOr]
  · intro res
    rw [pollTick.eq_def, if_neg hcap]
    simp [jsOr]
  · intro v ht
    rw [pollTick.eq_def, if_neg hcap]
    rcases v with ⟨s, res, em⟩
    rcases s
    · simp [Status.isTerminal] at ht
    · simp [Status.isTerminal] at ht
    · rcases res <;> simp
    · simp

/-- Witness for `poll_terminal_outcome`: first poll reads a `completed`
row with no payload. -/
theorem poll_terminal_outcome_witness :
    ((1 : ℕ) ≤ 1) ∧ ((1 : ℕ) ≤ maxAttempts) ∧
    pollTick 1 (.ok ⟨Status.completed, none, none⟩)
      = [.readStatus, .stopTimer, .setAnalyzing false,
         .surfaceError "Analysis completed but returned no data.".toList] :=
  ⟨le_rfl, by norm_num [maxAttempts],
   (poll_terminal_outcome 1 le_rfl (by norm_num [maxAttempts])).2.1 none⟩

/-- **C5 (counterexample).** A `failed` row whose stored error message
is the empty string: the poller does not surface the stored message
(the empty string) but the generic `"Analysis failed."` — the claim
"surfaces the stored error message, or a generic failure message when
none is stored" fails at this record. -/
theorem poll_failed_empty_message_counterexample :
    PollEffect.surfaceError []
        ∉ pollTick 1 (.ok ⟨Status.failed, none, some []⟩) ∧
    PollEffect.surfaceError "Analysis failed.".toList
        ∈ pollTick 1 (.ok ⟨Status.failed, none, some []⟩) := by
  constructor
  · rw [pollTick.eq_def, if_neg (by norm_num [maxAttempts])]
    simp [jsOr]
  · rw [pollTick.eq_def, if_neg (by norm_num [maxAttempts])]
    simp [jsOr]

/-! ## Submission client (`ScanDrinkCard.tsx`, `handleImageUpload`)

```ts
if (!supabase) { onError("System configuration error: Supabase client missing"); return; }
if (file.size > 5 * 1024 * 1024) { onError("Image is too large (max 5MB)"); return; }
try {
  const jobId = crypto.randomUUID();
  const { error: insertError } = await supabase.from("analysis_jobs").insert({ id: jobId, status: 'pending' });
  if (insertError) { throw new Error("Failed to initialize analysis task. ..."); }
  const base64 = await ...;
  const response = await fetch("/.netlify/functions/analyze-drink-background", ...);
  if (response.status !== 202 && response.status !== 200) { throw ...; }
  startPolling(jobId);
} catch (err) { ... onError(err.message ...); stopPolling(); }
```
-/

/-- Steps of one submission, in program order. -/
inductive SubmitEvent
  | surfaceError (msg : List Char)
  | insertPending
  | encodeImage
  | triggerWorker
  | startPoll
deriving DecidableEq

/-- The 5 MB size ceiling (`5 * 1024 * 1024` bytes). -/
def maxImageBytes : ℕ := 5 * 1024 * 1024

/-- The event trace of `handleImageUpload` for a chosen file, given the
configuration state (`supabaseOk`: client constructed), the file size in
bytes, whether the `pending`-row insert succeeds, and the HTTP status of
the trigger call. -/
def handleImageUpload (supabaseOk : Bool) (fileSize : ℕ)
    (insertOk : Bool) (triggerStatus : ℕ) : List SubmitEvent :=
  if ¬ supabaseOk then
    [.surfaceError "System configuration error: Supabase client missing".toList]
  else if maxImageBytes < fileSize then
    [.surfaceError "Image is too large (max 5MB)".toList]
  else
    .insertPending ::
      (if ¬ insertOk then
        [.surfaceError
          "Failed to initialize analysis task. Please ensure you are logged in.".toList]
       else
        .encodeImage :: .triggerWorker ::
          (if triggerStatus ≠ 202 ∧ triggerStatus ≠ 200 then
            [.surfaceError ("Failed to start analysis (Server returned ".toList
              ++ (toString triggerStatus).toList ++ ")".toList)]
           else [.startPoll]))

/-- **C7.** Every submission inserts the `pending` job record strictly
before the trigger call: whenever `triggerWorker` occurs in the trace,
`insertPending` occurs before it (and the insert succeeded); when the
record insert fails, the submission surfaces the failure and performs no
trigger and no polling — the trace is exactly the insert attempt
followed by the error. -/
theorem submit_insert_before_trigger (supabaseOk : Bool) (fileSize : ℕ)
    (insertOk : Bool) (triggerStatus : ℕ) :
    (SubmitEvent.triggerWorker
        ∈ handleImageUpload supabaseOk fileSize insertOk triggerStatus →
      [SubmitEvent.insertPending, SubmitEvent.triggerWorker].Sublist
          (handleImageUpload supabaseOk fileSize insertOk triggerStatus) ∧
        insertOk = true) ∧
    (insertOk = false → supabaseOk = true → fileSize ≤ maxImageBytes →
      handleImageUpload supabaseOk fileSize insertOk triggerStatus
        = [.insertPending,
           .surfaceError
             "Failed to initialize analysis task. Please ensure you are logged in.".toList] ∧
      SubmitEvent.triggerWorker
          ∉ handleImageUpload supabaseOk fileSize insertOk triggerStatus ∧
      SubmitEvent.startPoll
          ∉ handleImageUpload supabaseOk fileSize insertOk triggerStatus) := by
  constructor
  · intro htr
    rcases supabaseOk
    · simp [handleImageUpload] at htr
    · by_cases hsz : maxImageBytes < fileSize
      · simp [handleImageUpload, hsz] at htr
      · rcases insertOk
        · simp [handleImageUpload, hsz] at htr
        · refine ⟨?_, rfl⟩
          rw [handleImageUpload]
          by_cases htr2 : triggerStatus ≠ 202 ∧ triggerStatus ≠ 200 <;>
            simp [hsz, htr2]
  · intro hins hsup hsz
    subst hins; subst hsup
    rw [handleImageUpload]
    simp [Nat.not_lt.mpr hsz]

/-- Witness for `submit_insert_before_trigger`: failed insert on an
in-limit file with the client configured. -/
theorem submit_insert_before_trigger_witness :
    handleImageUpload true 1000 false 202
      = [.insertPending,
         .surfaceError
           "Failed to initialize analysis task. Please ensure you are logged in.".toList] ∧
    SubmitEvent.triggerWorker ∉ handleImageUpload true 1000 false 202 ∧
    SubmitEvent.startPoll ∉ handleImageUpload true 1000 false 202 :=
  (submit_insert_before_trigger true 1000 false 202).2 rfl rfl
    (by norm_num [maxImageBytes])

/-- **C8.** An image over the 5 MB ceiling is rejected immediately
(with the size validation error) before any network interaction: the
trace is exactly the validation error — no job record insert, no
trigger call, no polling. -/
theorem submit_size_validation (fileSize : ℕ) (insertOk : Bool)
    (triggerStatus : ℕ) (h : maxImageBytes < fileSize) :
    handleImageUpload true fileSize insertOk triggerStatus
      = [.surfaceError "Image is too large (max 5MB)".toList] ∧
    SubmitEvent.insertPending
        ∉ handleImageUpload true fileSize insertOk triggerStatus ∧
    SubmitEvent.triggerWorker
        ∉ handleImageUpload true fileSize insertOk triggerStatus ∧
    SubmitEvent.startPoll
        ∉ handleImageUpload true fileSize insertOk triggerStatus := by
  rw [handleImageUpload]
  simp [h]

/-- Witness for `submit_size_validation`: a 6 MB image. -/
theorem submit_size_validation_witness :
    maxImageBytes < 6 * 1024 * 1024 ∧
    handleImageUpload true (6 * 1024 * 1024) true 202
      = [.surfaceError "Image is too large (max 5MB)".toList] :=
  ⟨by norm_num [maxImageBytes],
   (submit_size_validation (6 * 1024 * 1024) true 202
      (by norm_num [maxImageBytes])).1⟩

/-! ## Worker response parsing (`analyze-drink-background.ts`)

```ts
const cleanContent = content
  .replace(/<\|begin_of_box\|>/g, "")
  .replace(/<\|end_of_box\|>/g, "")
  .replace(/^```json\s*/, "")
  .replace(/\s*```$/, "")
  .trim();
parsedData = JSON.parse(cleanContent);
// on failure:
const match = content.match(/```json([\s\S]*?)```/);
if (match && match[1]) { parsedData = JSON.parse(match[1]); } else { throw ...; }
```

Text is modelled as `List Char`; `JSON.parse` (an external library
function) is a parameter `parse : List Char → Option α` of the strategy.
-/

def beginBox : List Char := "<|begin_of_box|>".toList

def endBox : List Char := "<|end_of_box|>".toList

def fenceOpen : List Char := "```json".toList

def fence : List Char := "```".toList

/-- `s.replace(/pat/g, "")`: delete every occurrence of `pat`, scanning
left to right, not rescanning across a deletion's junction (JavaScript
global-replace semantics). -/
def removeAll (pat : List Char) (s : List Char) : List Char :=
  match s with
  | [] => []
  | c :: rest =>
    if pat.isPrefixOf (c :: rest) ∧ pat ≠ [] then
      removeAll pat (rest.drop (pat.length - 1))
    else
      c :: removeAll pat rest
termination_by s.length
decreasing_by
  all_goals simp [List.length_drop]
  all_goals omega

/-- Leading-whitespace removal (left half of `String.prototype.trim`). -/
def trimLeft (s : List Char) : List Char := s.dropWhile Char.isWhitespace

/-- Trailing-whitespace removal (right half of `String.prototype.trim`). -/
def trimRight (s : List Char) : List Char :=
  (s.reverse.dropWhile Char.isWhitespace).reverse

/-- JavaScript `s.trim()`. -/
def jsTrim (s : List Char) : List Char := trimRight (trimLeft s)

/-- `.replace(/^```json\s*/, "")`: if the text starts with the fence
opener, drop it and the following whitespace run. -/
def stripFenceOpen (s : List Char) : List Char :=
  if fenceOpen.isPrefixOf s then
    (s.drop fenceOpen.length).dropWhile Char.isWhitespace
  else s

/-- `.replace(/\s*```$/, "")`: if the text ends with a fence, drop it
and the whitespace run before it. -/
def stripFenceClose (s : List Char) : List Char :=
  if fence.isSuffixOf s then
    ((s.reverse.drop fence.length).dropWhile Char.isWhitespace).reverse
  else s

/-- The worker's `cleanContent` pipeline: strip box tokens, strip a
leading `‌```json` and a trailing `‌```, then trim. -/
def cleanContent (content : List Char) : List Char :=
  jsTrim (stripFenceClose (stripFenceOpen
    (removeAll endBox (removeAll beginBox content))))

/-- The suffix of `s` after the first occurrence of `pat`, if any. -/
def afterFirst (pat : List Char) (s : List Char) : Option (List Char) :=
  match s with
  | [] => if pat.isPrefixOf ([] : List Char) then some [] else none
  | c :: rest =>
    if pat.isPrefixOf (c :: rest) then some ((c :: rest).drop pat.length)
    else afterFirst pat rest

/-- The part of `s` strictly before the first occurrence of `pat`, if
any. -/
def beforeFirst (pat : List Char) (s : List Char) : Option (List Char) :=
  match s with
  | [] => if pat.isPrefixOf ([] : List Char) then some [] else none
  | c :: rest =>
    if pat.isPrefixOf (c :: rest) then some []
    else (beforeFirst pat rest).map (c :: ·)

/-- The fallback `content.match(/```json([\s\S]*?)```/)`: group 1 is the
text between the first fence opener and the first fence after it. -/
def extractFenced (content : List Char) : Option (List Char) :=
  (afterFirst fenceOpen content).bind (beforeFirst fence)

/-- The worker's two-stage unwrap-then-parse strategy: clean then parse;
on failure extract the first fenced block and parse it — the code's
`if (match && match[1])` also rejects an *empty* group 1 (falsy in
JavaScript); if both stages fail, the content is a parse failure. -/
def unwrapParse {α : Type} (parse : List Char → Option α)
    (content : List Char) : Option α :=
  match parse (cleanContent content) with
  | some v => some v
  | none =>
    match extractFenced content with
    | some mid => if mid = [] then none else parse mid
    | none => none

/-- Model output wrapped in fence markers (`‌```json\n … \n``` `). -/
def fenceWrap (j : List Char) : List Char :=
  "```json\n".toList ++ j ++ "\n```".toList

/-- Model output wrapped in the vendor's box delimiters. -/
def boxWrap (j : List Char) : List Char := beginBox ++ j ++ endBox

/-- Whether `pat` occurs as a contiguous substring of `s`. -/
def hasSubstr (pat : List Char) : List Char → Bool
  | [] => pat.isEmpty
  | c :: rest => pat.isPrefixOf (c :: rest) || hasSubstr pat rest

lemma isPrefixOf_eq {l₁ l₂ : List Char} :
    l₁.isPrefixOf l₂ = true ↔ l₁ <+: l₂ := List.isPrefixOf_iff_prefix

lemma take_isPrefix (n : ℕ) (l : List Char) : l.take n <+: l :=
  List.take_prefix n l

lemma removeAll_nil (pat : List Char) : removeAll pat [] = [] := by
  rw [removeAll.eq_def]

lemma removeAll_cons (pat : List Char) (c : Char) (rest : List Char) :
    removeAll pat (c :: rest)
      = if pat.isPrefixOf (c :: rest) ∧ pat ≠ []
        then removeAll pat (rest.drop (pat.length - 1))
        else c :: removeAll pat rest := by
  rw [removeAll.eq_def]

lemma hasSubstr_cons_of (pat : List Char) (c : Char) (rest : List Char)
    (h : hasSubstr pat rest = true) : hasSubstr pat (c :: rest) = true := by
  rw [hasSubstr]
  simp [h]

lemma not_isPrefixOf_of_not_hasSubstr (pat s : List Char)
    (h : hasSubstr pat s = false) : pat.isPrefixOf s = false := by
  rcases s with _ | ⟨c, rest⟩
  · rw [hasSubstr] at h
    rcases pat with _ | ⟨p, pt⟩
    · simp [List.isEmpty] at h
    · rfl
  · rw [hasSubstr] at h
    exact (Bool.or_eq_false_iff.mp h).1

lemma removeAll_of_not_hasSubstr (pat s : List Char)
    (h : hasSubstr pat s = false) : removeAll pat s = s := by
  induction s with
  | nil => exact removeAll_nil pat
  | cons c rest ih =>
    rw [removeAll_cons,
      if_neg (by simp [not_isPrefixOf_of_not_hasSubstr pat _ h])]
    rw [hasSubstr, Bool.or_eq_false_iff] at h
    rw [ih h.2]

lemma prefix_take_of_le {p a b : List Char} (hp : p <+: a ++ b)
    (hle : p.length ≤ a.length) : p <+: a := by
  have h1 : p = (a ++ b).take p.length := List.prefix_iff_eq_take.mp hp
  rw [List.take_append_eq_append_take, Nat.sub_eq_zero_of_le hle,
    List.take_zero, List.append_nil] at h1
  rw [h1]
  exact take_isPrefix _ _

lemma drop_prefix_of_le {p a b : List Char} (hp : p <+: a ++ b)
    (_hle : a.length ≤ p.length) : p.drop a.length <+: b := by
  have h1 : p = (a ++ b).take p.length := List.prefix_iff_eq_take.mp hp
  have h2 : p.drop a.length = b.take (p.length - a.length) := by
    conv_lhs => rw [h1]
    rw [List.drop_take, List.drop_left]
  rw [h2]
  exact take_isPrefix _ _

lemma removeAll_nil_pat (s : List Char) : removeAll [] s = s := by
  induction s with
  | nil => exact removeAll_nil []
  | cons c rest ih =>
    rw [removeAll_cons, if_neg (by simp), ih]

/-- Occurrence-free left factor passes through `removeAll` when no
occurrence can span the junction (no proper tail of `pat` opens `t`). -/
lemma removeAll_append (pat j t : List Char)
    (hj : hasSubstr pat j = false)
    (hcross : ∀ k, k < pat.length → 0 < k →
      (pat.drop k).isPrefixOf t = false) :
    removeAll pat (j ++ t) = j ++ removeAll pat t := by
  induction j with
  | nil => simp
  | cons c rest ih =>
    have hpre : pat.isPrefixOf (c :: (rest ++ t)) = false := by
      rw [Bool.eq_false_iff]
      intro hcon
      rw [isPrefixOf_eq] at hcon
      by_cases hlen : pat.length ≤ (c :: rest).length
      · have hta := prefix_take_of_le (a := c :: rest) (b := t) hcon hlen
        rw [← isPrefixOf_eq] at hta
        rw [hasSubstr, hta] at hj
        simp at hj
      · push_neg at hlen
        have hd := drop_prefix_of_le (a := c :: rest) (b := t) hcon (by omega)
        rw [← isPrefixOf_eq] at hd
        have hce := hcross (c :: rest).length (by omega) (by simp)
        rw [hce] at hd
        cases hd
    rw [List.cons_append, removeAll_cons, if_neg ?hneg]
    case hneg =>
      intro hcon
      have h1 := hcon.1
      rw [hpre] at h1
      cases h1
    rw [hasSubstr, Bool.or_eq_false_iff] at hj
    rw [ih hj.2]
    rfl

/-- A left factor none of whose characters can start `pat` passes
through `removeAll`. -/
lemma removeAll_append_left (pat a t : List Char)
    (ha : ∀ c ∈ a, pat.head? ≠ some c) :
    removeAll pat (a ++ t) = a ++ removeAll pat t := by
  induction a with
  | nil => simp
  | cons c rest ih =>
    rcases hp : pat with _ | ⟨p0, pt⟩
    · rw [removeAll_nil_pat, removeAll_nil_pat]
    · have hc : (p0 == c) = false := by
        have := ha c (by simp)
        rw [hp] at this
        simp only [List.head?] at this
        simp only [beq_eq_false_iff_ne, ne_eq]
        intro hcon
        exact this (by rw [hcon])
      rw [List.cons_append, removeAll_cons,
        if_neg (by simp [List.isPrefixOf, hc])]
      rw [← hp, ih (fun x hx => ha x (by simp [hx]))]
      rfl

/-- `removeAll` deletes a literal leading occurrence of the pattern. -/
lemma removeAll_self_append (pat s : List Char) (hp : pat ≠ []) :
    removeAll pat (pat ++ s) = removeAll pat s := by
  rcases pat with _ | ⟨p, pt⟩
  · exact absurd rfl hp
  · rw [List.cons_append, removeAll_cons, if_pos ?_]
    · have : (pt ++ s).drop ((p :: pt).length - 1) = s := by
        simp only [List.length_cons, Nat.add_sub_cancel]
        exact List.drop_left pt s
      rw [this]
    · constructor
      · rw [isPrefixOf_eq, ← List.cons_append]
        exact List.prefix_append _ _
      · simp

lemma dropWhile_idem (p : Char → Bool) (l : List Char) :
    (l.dropWhile p).dropWhile p = l.dropWhile p := by
  induction l with
  | nil => rfl
  | cons a l ih =>
    rw [List.dropWhile_cons]
    split_ifs with h
    · exact ih
    · rw [List.dropWhile_cons, if_neg h]

lemma dropWhile_cons_fix {p : Char → Bool} {c : Char} {l : List Char}
    (h : List.dropWhile p (c :: l) = c :: l) : p c = false := by
  by_contra hc
  rw [Bool.not_eq_false] at hc
  rw [List.dropWhile_cons, if_pos hc] at h
  have hlen : (List.dropWhile p l).length ≤ l.length :=
    (List.dropWhile_suffix p).length_le
  rw [h] at hlen
  simp at hlen

lemma trimRight_isPrefix (l : List Char) : trimRight l <+: l := by
  rw [← List.reverse_suffix, trimRight, List.reverse_reverse]
  exact List.dropWhile_suffix _

lemma trimLeft_trimRight (l : List Char) (h : trimLeft l = l) :
    trimLeft (trimRight l) = trimRight l := by
  rcases hR : trimRight l with _ | ⟨c, rest⟩
  · rfl
  · have hpre : c :: rest <+: l := hR ▸ trimRight_isPrefix l
    obtain ⟨tail, htail⟩ := hpre
    have hc : Char.isWhitespace c = false := by
      apply dropWhile_cons_fix (l := rest ++ tail)
      rw [trimLeft] at h
      rw [← htail] at h
      exact h
    rw [trimLeft, List.dropWhile_cons, if_neg (by simp [hc])]

lemma trimRight_idem (l : List Char) : trimRight (trimRight l) = trimRight l := by
  rw [trimRight, trimRight, List.reverse_reverse, dropWhile_idem]

lemma jsTrim_idem (l : List Char) : jsTrim (jsTrim l) = jsTrim l := by
  simp only [jsTrim]
  rw [trimLeft_trimRight (trimLeft l) (dropWhile_idem _ _), trimRight_idem]

lemma dropWhile_append_nil (p : Char → Bool) (l₁ l₂ : List Char)
    (h : l₁.dropWhile p = []) :
    (l₁ ++ l₂).dropWhile p = l₂.dropWhile p := by
  induction l₁ with
  | nil => rfl
  | cons a l ih =>
    rw [List.dropWhile_cons] at h
    rw [List.cons_append, List.dropWhile_cons]
    split_ifs at h ⊢ with ha
    exact ih h

lemma dropWhile_append_ne_nil (p : Char → Bool) (l₁ l₂ : List Char)
    (h : l₁.dropWhile p ≠ []) :
    (l₁ ++ l₂).dropWhile p = l₁.dropWhile p ++ l₂ := by
  induction l₁ with
  | nil => simp [List.dropWhile] at h
  | cons a l ih =>
    rw [List.dropWhile_cons] at h ⊢
    rw [List.cons_append, List.dropWhile_cons]
    split_ifs at h ⊢ with ha
    · exact ih h
    · rfl

lemma hasSubstr_of_isPrefixOf (pat s : List Char)
    (h : pat.isPrefixOf s = true) : hasSubstr pat s = true := by
  rcases s with _ | ⟨c, rest⟩
  · rcases pat with _ | ⟨p, pt⟩
    · rfl
    · simp [List.isPrefixOf] at h
  · rw [hasSubstr, h]
    simp

lemma hasSubstr_of_suffix (pat s : List Char) (h : pat <:+ s) :
    hasSubstr pat s = true := by
  induction s with
  | nil =>
    obtain ⟨t, ht⟩ := h
    have hp : pat = [] := (List.append_eq_nil.mp ht).2
    subst hp
    rfl
  | cons c rest ih =>
    rcases List.suffix_cons_iff.mp h with h1 | h2
    · rw [h1] at h ⊢
      rw [hasSubstr, isPrefixOf_eq.mpr (List.prefix_refl _)]
      exact Bool.true_or _
    · rw [hasSubstr, ih h2]
      simp

lemma isSuffixOf_eq {l₁ l₂ : List Char} :
    l₁.isSuffixOf l₂ = true ↔ l₁ <:+ l₂ := List.isSuffixOf_iff_suffix

lemma stripFenceOpen_of_no_fence (j : List Char)
    (hf : hasSubstr fence j = false) : stripFenceOpen j = j := by
  rw [stripFenceOpen, if_neg ?_]
  intro hcon
  have h3 : fence <+: j :=
    (isPrefixOf_eq.mp (by decide : fence.isPrefixOf fenceOpen = true)).trans
      (isPrefixOf_eq.mp hcon)
  have h4 := hasSubstr_of_isPrefixOf fence j (isPrefixOf_eq.mpr h3)
  rw [hf] at h4
  cases h4

lemma stripFenceClose_of_no_fence (j : List Char)
    (hf : hasSubstr fence j = false) : stripFenceClose j = j := by
  rw [stripFenceClose, if_neg ?_]
  intro hcon
  have h4 := hasSubstr_of_suffix fence j (isSuffixOf_eq.mp hcon)
  rw [hf] at h4
  cases h4

lemma cleanContent_plain (j : List Char)
    (hb : hasSubstr beginBox j = false) (he : hasSubstr endBox j = false)
    (hf : hasSubstr fence j = false) : cleanContent j = jsTrim j := by
  rw [cleanContent, removeAll_of_not_hasSubstr _ _ hb,
    removeAll_of_not_hasSubstr _ _ he, stripFenceOpen_of_no_fence j hf,
    stripFenceClose_of_no_fence j hf]

lemma cleanContent_boxWrap (j : List Char)
    (hb : hasSubstr beginBox j = false) (he : hasSubstr endBox j = false)
    (hf : hasSubstr fence j = false) : cleanContent (boxWrap j) = jsTrim j := by
  rw [cleanContent, boxWrap, List.append_assoc,
    removeAll_self_append beginBox (j ++ endBox) (by decide),
    removeAll_append beginBox j endBox hb (by decide),
    removeAll_of_not_hasSubstr beginBox endBox (by decide),
    removeAll_append endBox j endBox he (by decide)]
  have h1 : removeAll endBox endBox = [] := by
    have h2 := removeAll_self_append endBox [] (by decide)
    rw [List.append_nil] at h2
    rw [h2, removeAll_nil]
  rw [h1, List.append_nil, stripFenceOpen_of_no_fence j hf,
    stripFenceClose_of_no_fence j hf]

lemma cleanContent_fenceWrap (j : List Char)
    (hb : hasSubstr beginBox j = false) (he : hasSubstr endBox j = false)
    (_hf : hasSubstr fence j = false) :
    cleanContent (fenceWrap j) = jsTrim j := by
  have hfo : "```json\n".toList = fenceOpen ++ ['\n'] := by decide
  rw [cleanContent, fenceWrap, List.append_assoc,
    removeAll_append_left beginBox _ _ (by decide),
    removeAll_append beginBox j _ hb (by decide),
    removeAll_of_not_hasSubstr beginBox "\n```".toList (by decide),
    removeAll_append_left endBox _ _ (by decide),
    removeAll_append endBox j _ he (by decide),
    removeAll_of_not_hasSubstr endBox "\n```".toList (by decide)]
  have hpre : fenceOpen.isPrefixOf
      ("```json\n".toList ++ (j ++ "\n```".toList)) = true := by
    rw [isPrefixOf_eq, hfo, List.append_assoc]
    exact List.prefix_append _ _
  rw [stripFenceOpen, if_pos hpre]
  have hdrop : ("```json\n".toList ++ (j ++ "\n```".toList)).drop fenceOpen.length
      = '\n' :: (j ++ "\n```".toList) := by
    rw [hfo, List.append_assoc]
    exact List.drop_left fenceOpen (['\n'] ++ (j ++ "\n```".toList))
  rw [hdrop, List.dropWhile_cons, if_pos (by decide)]
  rcases hjd : List.dropWhile Char.isWhitespace j with _ | ⟨c0, jd'⟩
  · rw [dropWhile_append_nil Char.isWhitespace j _ hjd]
    have hwc : List.dropWhile Char.isWhitespace "\n```".toList = fence := by decide
    rw [hwc]
    have hsc : stripFenceClose fence = [] := by decide
    rw [hsc]
    have h0 : jsTrim ([] : List Char) = [] := rfl
    rw [h0, jsTrim, trimLeft, hjd]
    rfl
  · have hne : List.dropWhile Char.isWhitespace j ≠ [] := by rw [hjd]; simp
    rw [dropWhile_append_ne_nil Char.isWhitespace j _ hne]
    have hnl : ['\n'] ++ fence = "\n```".toList := by decide
    have hsuf : fence.isSuffixOf
        (List.dropWhile Char.isWhitespace j ++ "\n```".toList) = true := by
      rw [isSuffixOf_eq]
      exact ⟨List.dropWhile Char.isWhitespace j ++ ['\n'],
        by rw [List.append_assoc, hnl]⟩
    rw [stripFenceClose, if_pos hsuf]
    have hrv : (List.dropWhile Char.isWhitespace j ++ "\n```".toList).reverse.drop
          fence.length
        = '\n' :: (List.dropWhile Char.isWhitespace j).reverse := by
      rw [List.reverse_append]
      have hfc : ("\n```".toList).reverse = fence ++ ['\n'] := by decide
      rw [hfc, List.append_assoc]
      exact List.drop_left fence
        (['\n'] ++ (List.dropWhile Char.isWhitespace j).reverse)
    rw [hrv, List.dropWhile_cons, if_pos (by decide)]
    have hfin : (List.dropWhile Char.isWhitespace
          (List.dropWhile Char.isWhitespace j).reverse).reverse
        = jsTrim j := rfl
    rw [hfin, jsTrim_idem]

/-- **C6.** The unwrap-then-parse strategy is invariant under incidental
wrapping: for content `j` that parses as structured data (the abstract
parser `parse` accepts the trimmed `j`) and carries no stray delimiter
tokens of its own, the strategy yields the same parsed value on `j`
wrapped in fence markers, on `j` wrapped in `<|begin_of_box|>` /
`<|end_of_box|>` delimiters, and on bare `j`; content on which both
stages fail is a parse failure. -/
theorem unwrap_parse_invariant {α : Type} (parse : List Char → Option α)
    (j : List Char) (v : α)
    (hparse : parse (jsTrim j) = some v)
    (hb : hasSubstr beginBox j = false)
    (he : hasSubstr endBox j = false)
    (hf : hasSubstr fence j = false) :
    unwrapParse parse (fenceWrap j) = some v ∧
    unwrapParse parse (boxWrap j) = some v ∧
    unwrapParse parse j = some v ∧
    (∀ content, parse (cleanContent content) = none →
      (extractFenced content).bind
          (fun mid => if mid = [] then none else parse mid) = none →
      unwrapParse parse content = none) := by
  refine ⟨?_, ?_, ?_, ?_⟩
  · rw [unwrapParse.eq_def, cleanContent_fenceWrap j hb he hf, hparse]
  · rw [unwrapParse.eq_def, cleanContent_boxWrap j hb he hf, hparse]
  · rw [unwrapParse.eq_def, cleanContent_plain j hb he hf, hparse]
  · intro content hc hx
    rw [unwrapParse.eq_def, hc]
    rcases hex : extractFenced content with _ | mid
    · rfl
    · rw [hex, Option.some_bind] at hx
      exact hx

/-- Witness for `unwrap_parse_invariant`: a parser accepting the
two-character object text, applied to that text wrapped in fences. -/
theorem unwrap_parse_invariant_witness :
    ((fun s => if s = "\x7b\x7d".toList then some () else none)
        (jsTrim "\x7b\x7d".toList) = some ()) ∧
    hasSubstr beginBox "\x7b\x7d".toList = false ∧
    hasSubstr endBox "\x7b\x7d".toList = false ∧
    hasSubstr fence "\x7b\x7d".toList = false ∧
    unwrapParse (fun s => if s = "\x7b\x7d".toList then some () else none)
        (fenceWrap "\x7b\x7d".toList) = some () :=
  ⟨by decide, by decide, by decide, by decide,
   (unwrap_parse_invariant (fun s => if s = "\x7b\x7d".toList then some () else none)
      "\x7b\x7d".toList () (by decide) (by decide) (by decide) (by decide)).1⟩

end CoffeeClock
